import Mathlib

/-!
Verification of the NBA player-props prop-edge engine.

The development shallowly embeds the core data model and operations of the
repository: the temporal rolling-feature builder
(src/features/build_points_features.py, build_latest_player_features in
src/inference/predict_today_assists_props_regression.py and
src/inference/predict_today_points_prop.py), the team-defense rolling
builder (src/features/add_opponent_context.py, build_latest_team_defense),
the American-odds conversion (src/odds/normalize_points_props.py,
american_to_implied), the edge scorer and constrained selector
(src/inference/predict_today_assists_props_regression.py, main), and the
opponent resolver (infer_opp_abbr).

Floating-point columns are modelled as exact rationals, missing values
(NaN) as Option, and pandas row tables as lists.
-/

/-- One player's participation in one game, as one row of the historical
game-log table (columns GAME_DATE, MATCHUP, MIN, PTS, AST, REB, FGA, FTA,
FG3A, TOV).  Dates are day ordinals. -/
structure GameEvent where
  date : Int
  matchup : String
  minPlayed : Rat
  pts : Rat
  ast : Rat
  reb : Rat
  fga : Rat
  fta : Rat
  fg3a : Rat
  tov : Rat
deriving DecidableEq, Repr

/-- Mean of a list of rationals, as computed by pandas Series.mean on a
complete window. -/
def meanQ (xs : List Rat) : Rat :=
  xs.sum / (xs.length : Rat)

/-- Sample variance (pandas Series.std uses ddof = 1; the source's rolling
std features are the square root of this).  Every rolling-window use in the
source has window length 10, so the degenerate branches never arise. -/
def sampleVar (xs : List Rat) : Rat :=
  let m := meanQ xs
  (xs.map (fun x => (x - m) ^ 2)).sum / ((xs.length : Rat) - 1)

/-- The shift-then-roll aggregate of pandas `col.shift(1).rolling(w).agg()`
at row index `k` of a per-player partition: the aggregate of rows
`k - w .. k - 1`, defined only when `w` prior rows exist (rolling's default
min_periods equals the window, and shift(1) inserts one missing value). -/
def windowAgg {α β : Type} (f : List α → β) (w : Nat) (xs : List α) (k : Nat) :
    Option β :=
  if w ≤ k ∧ k ≤ xs.length then some (f ((xs.take k).drop (k - w))) else none

/-- Rolling feature `pts_last10` of build_features: trailing mean of PTS over
the 10 strictly prior games. -/
def pts_last10 (es : List GameEvent) (k : Nat) : Option Rat :=
  windowAgg (fun l => meanQ (l.map GameEvent.pts)) 10 es k

/-- Rolling feature `min_last5`: trailing mean of MIN over the 5 strictly
prior games. -/
def min_last5 (es : List GameEvent) (k : Nat) : Option Rat :=
  windowAgg (fun l => meanQ (l.map GameEvent.minPlayed)) 5 es k

/-- Square of the rolling feature `pts_std_last10` (sample variance of PTS
over the 10 strictly prior games); the source's feature is its square
root. -/
def pts_var_last10 (es : List GameEvent) (k : Nat) : Option Rat :=
  windowAgg (fun l => sampleVar (l.map GameEvent.pts)) 10 es k

/-- Rolling feature `pts_std_last10`: trailing sample standard deviation of
PTS over the 10 strictly prior games. -/
noncomputable def pts_std_last10 (es : List GameEvent) (k : Nat) : Option Real :=
  windowAgg (fun l => Real.sqrt ((sampleVar (l.map GameEvent.pts) : Rat) : Real)) 10 es k

/-- Rolling feature `pts_per_min_last10`: ratio of the sum of PTS to the sum
of MIN over the 10 strictly prior games (a ratio of sums, not a mean of
ratios). -/
def pts_per_min_last10 (es : List GameEvent) (k : Nat) : Option Rat :=
  windowAgg (fun l => (l.map GameEvent.pts).sum / (l.map GameEvent.minPlayed).sum) 10 es k

/-- Rolling feature `ast_per_min_last10` of build_latest_player_features
(assists path): ratio of summed AST to summed MIN over the 10 strictly
prior games. -/
def ast_per_min_last10 (es : List GameEvent) (k : Nat) : Option Rat :=
  windowAgg (fun l => (l.map GameEvent.ast).sum / (l.map GameEvent.minPlayed).sum) 10 es k

/-- A concrete four-game player log used to witness the no-look-ahead
property. -/
def cesA : List GameEvent :=
  [⟨1, "AAA vs. BBB", 30, 10, 2, 3, 8, 2, 4, 1⟩,
   ⟨3, "AAA vs. CCC", 32, 20, 3, 4, 12, 4, 5, 2⟩,
   ⟨4, "AAA @ DDD", 28, 30, 4, 5, 15, 6, 6, 0⟩,
   ⟨7, "AAA @ EEE", 35, 40, 5, 6, 20, 8, 7, 3⟩]

/-- The same log with the event at index 3 (an index `≥ k = 3`) perturbed. -/
def cesB : List GameEvent :=
  [⟨1, "AAA vs. BBB", 30, 10, 2, 3, 8, 2, 4, 1⟩,
   ⟨3, "AAA vs. CCC", 32, 20, 3, 4, 12, 4, 5, 2⟩,
   ⟨4, "AAA @ DDD", 28, 30, 4, 5, 15, 6, 6, 0⟩,
   ⟨7, "AAA @ EEE", 1, 99, 9, 9, 9, 9, 9, 9⟩]

/-- One row of the merged team-game table of add_opponent_context.py /
build_latest_team_defense: a (team, game-date) aggregate with the opponent
totals of the same GAME_ID already attached by the self-merge. -/
structure TeamGame where
  team : Nat
  date : Int
  oppPts : Rat
  oppFga : Rat
  oppFta : Rat
  oppFg3a : Rat
deriving DecidableEq, Repr

/-- Ascending lexicographic order on (TEAM_ID, GAME_DATE), the sort key of
`sort_values(["TEAM_ID", "GAME_DATE"])`. -/
def teamDateLeB (a b : TeamGame) : Bool :=
  decide (a.team < b.team ∨ (a.team = b.team ∧ a.date ≤ b.date))

/-- Stable insertion step for the (team, date) sort. -/
def insertTG (r : TeamGame) : List TeamGame → List TeamGame
  | [] => [r]
  | x :: xs => if teamDateLeB r x then r :: x :: xs else x :: insertTG r xs

/-- Stable sort of the merged team-game table by (TEAM_ID, GAME_DATE). -/
def sortTeamDate (l : List TeamGame) : List TeamGame :=
  l.foldr insertTG []

/-- The source's `opp_pts_allowed_last10`: after sorting the whole merged
frame by (TEAM_ID, GAME_DATE), `opp_pts.shift(1).rolling(10).mean()` is
taken over the entire flat frame (add_opponent_context.py lines 43-49 and
build_latest_team_defense lines 159-162) — there is no groupby, so the
window can span a team boundary. -/
def opp_pts_allowed_last10 (rows : List TeamGame) (i : Nat) : Option Rat :=
  windowAgg (fun l => meanQ (l.map TeamGame.oppPts)) 10 (sortTeamDate rows) i

/-- The source's `opp_fga_allowed_last10`, computed the same flat way. -/
def opp_fga_allowed_last10 (rows : List TeamGame) (i : Nat) : Option Rat :=
  windowAgg (fun l => meanQ (l.map TeamGame.oppFga)) 10 (sortTeamDate rows) i

/-- The source's `opp_fta_allowed_last10`, computed the same flat way. -/
def opp_fta_allowed_last10 (rows : List TeamGame) (i : Nat) : Option Rat :=
  windowAgg (fun l => meanQ (l.map TeamGame.oppFta)) 10 (sortTeamDate rows) i

/-- The source's `opp_fg3a_allowed_last10`, computed the same flat way. -/
def opp_fg3a_allowed_last10 (rows : List TeamGame) (i : Nat) : Option Rat :=
  windowAgg (fun l => meanQ (l.map TeamGame.oppFg3a)) 10 (sortTeamDate rows) i

/-- The claim's (and the source comment's) per-team trailing mean: the mean
of the opponent points from the same team's 10 most recent strictly-prior
rows of the sorted frame, undefined when fewer than 10 exist.  Stated from
the spec sentence for TeamDefenseRow, to be compared against the flat
computation above. -/
def perTeamAllowedPts (rows : List TeamGame) (i : Nat) : Option Rat :=
  let s := sortTeamDate rows
  match s.get? i with
  | none => none
  | some r =>
    let prior := (s.take i).filter (fun x => x.team == r.team)
    if 10 ≤ prior.length then
      some (meanQ ((prior.drop (prior.length - 10)).map TeamGame.oppPts))
    else none

/-- Shorthand for a team-game row whose attack columns are irrelevant. -/
def tg (t : Nat) (d : Int) (p : Rat) : TeamGame := ⟨t, d, p, 0, 0, 0⟩

/-- A concrete merged table: team 0 has ten games (opponents scored 0 in
each), team 1 has four games (opponents scored 100 in each).  Already in
(team, date) order. -/
def exTG : List TeamGame :=
  [tg 0 1 0, tg 0 2 0, tg 0 3 0, tg 0 4 0, tg 0 5 0,
   tg 0 6 0, tg 0 7 0, tg 0 8 0, tg 0 9 0, tg 0 10 0,
   tg 1 1 100, tg 1 2 100, tg 1 3 100, tg 1 4 100]

/-- The source's american_to_implied (src/odds/normalize_points_props.py
lines 10-16, identical copies in both inference scripts): missing odds stay
missing; positive odds o give 100/(o+100); other odds o give
(-o)/((-o)+100). -/
def american_to_implied (odds : Option Rat) : Option Rat :=
  match odds with
  | none => none
  | some o => if 0 < o then some (100 / (o + 100)) else some ((-o) / ((-o) + 100))

/-- The Gauss error function.  The source calls Python's math.erf (an
external library routine, not repository code); it is embedded here by its
mathematical definition. -/
noncomputable def erf (x : Real) : Real :=
  2 / Real.sqrt Real.pi * ∫ t in (0:Real)..x, Real.exp (-t ^ 2)

/-- The source's norm_cdf
(src/inference/predict_today_assists_props_regression.py lines 139-140):
`0.5 * (1 + erf (x / sqrt 2))`. -/
noncomputable def norm_cdf (x : Real) : Real :=
  0.5 * (1 + erf (x / Real.sqrt 2))

/-- The standard normal cumulative distribution function (the spec's Phi),
written directly as the integral of the standard Gaussian density. -/
noncomputable def stdNormalCdf (x : Real) : Real :=
  ∫ t in Set.Iic x, ProbabilityTheory.gaussianPDFReal 0 1 t

/-- The source's p_over_model (main, lines 421-422): with z the
dispersion-scaled distance of the line from the point estimate,
`1 - norm_cdf z`. -/
noncomputable def p_over_model (line est sigma : Real) : Real :=
  1 - norm_cdf ((line - est) / sigma)

/-- The source's p_under_model (main, line 423): `1 - p_over_model`. -/
noncomputable def p_under_model (line est sigma : Real) : Real :=
  1 - p_over_model line est sigma

/-- The side of a prop bet candidate (the source's best_side column). -/
inductive Side where
  | over : Side
  | under : Side
deriving DecidableEq, Repr

/-- One EdgeCandidate row entering the selection step of main (lines
445-456): normalized player identity, the quoted line, the best side and
its edge. -/
structure Cand where
  player : String
  line : Rat
  side : Side
  edge : Rat
deriving DecidableEq, Repr

/-- Round half to even (the rounding of numpy / pandas Series.round). -/
def bround (x : Rat) : Int :=
  if x - ⌊x⌋ = 1 / 2 then (if Even ⌊x⌋ then ⌊x⌋ else ⌊x⌋ + 1) else round x

/-- Round to one decimal place, half to even (pandas `.round(1)`). -/
def round1 (x : Rat) : Rat :=
  (bround (10 * x) : Rat) / 10

/-- The source's ai_rating column (line 435): the best edge times 100,
rounded to one decimal place. -/
def ai_rating (c : Cand) : Rat :=
  round1 (100 * c.edge)

/-- Stable descending insertion by ai_rating: the inserted element
(earlier in the input) goes before later elements of equal rating. -/
def insertByRating (c : Cand) : List Cand → List Cand
  | [] => [c]
  | x :: xs => if ai_rating c ≥ ai_rating x then c :: x :: xs else x :: insertByRating c xs

/-- The source's `sort_values("ai_rating", ascending=False)` (line 446),
modelled as a stable descending insertion sort.  Pandas' default kind is
quicksort (numpy introsort), which is NOT stable once a frame exceeds 16
rows; for at most 16 rows introsort is a stable insertion sort, and pandas
realizes descending order by reversing, argsorting and reversing back, so
the two reversals cancel and ties keep their input order.  This model is
therefore faithful on tie order only for lists of at most 16 candidates;
every theorem below either is insensitive to the order of equal-rating
candidates (the sort is some descending-by-rating permutation in any
case) or restricts its tie-order clause to that length bound. -/
def sortByRatingDesc (l : List Cand) : List Cand :=
  l.foldr insertByRating []

/-- Pandas drop_duplicates keep="first" on key `key`, with the set of
already-seen keys made explicit. -/
def dedupSeen {κ : Type} [DecidableEq κ] (key : Cand → κ) (seen : List κ) :
    List Cand → List Cand
  | [] => []
  | x :: xs =>
    if key x ∈ seen then dedupSeen key seen xs
    else x :: dedupSeen key (key x :: seen) xs

/-- Pandas drop_duplicates keep="first" on key `key`. -/
def dedupFirst {κ : Type} [DecidableEq κ] (key : Cand → κ) (l : List Cand) :
    List Cand :=
  dedupSeen key [] l

/-- The source's `ranked` frame (lines 445-450): sort by ai_rating
descending, drop duplicate (player_norm, line) rows, then drop duplicate
player_norm rows, keeping the first in each case. -/
def rankedCands (l : List Cand) : List Cand :=
  dedupFirst (fun c => c.player)
    (dedupFirst (fun c => (c.player, c.line)) (sortByRatingDesc l))

/-- The source's `unders` slate section (line 452): the first five
under-side rows of the ranked frame. -/
def selectUnders (l : List Cand) : List Cand :=
  ((rankedCands l).filter (fun c => decide (c.side = Side.under))).take 5

/-- The source's `overs` slate section (lines 453-456): over-side rows of
the ranked frame, filling the capacity left over by the unders
(11 minus the number of unders). -/
def selectOvers (l : List Cand) : List Cand :=
  ((rankedCands l).filter (fun c => decide (c.side = Side.over))).take
    (11 - (selectUnders l).length)

/-- The final slate written to the report: overs section then unders
section. -/
def selectSlate (l : List Cand) : List Cand :=
  selectOvers l ++ selectUnders l

/-- Two over-side candidates for the same player on different lines whose
distinct edges round to the same ai_rating; the earlier, lower-edge one is
listed first. -/
def cLow : Cand := ⟨"john doe", 5/2, Side.over, 1001/10000⟩

/-- The later, higher-edge candidate of the colliding pair. -/
def cHigh : Cand := ⟨"john doe", 7/2, Side.over, 2511/25000⟩

/-- An equal-edge candidate whose player name sorts last alphabetically. -/
def czCand : Cand := ⟨"zz top", 5/2, Side.over, 1/10⟩

/-- An equal-edge candidate whose player name sorts first alphabetically. -/
def caCand : Cand := ⟨"aa bottom", 7/2, Side.over, 1/10⟩

/-- The source's infer_opp_abbr (lines 363-373) and get_opp_team_norm
(predict_today_points_prop.py lines 232-241): resolve the opponent from the
player's current team and the two teams on the quote; an unknown player
team or a team matching neither side yields no opponent. -/
def infer_opp_abbr (pt ha aa : Option String) : Option String :=
  match pt with
  | none => none
  | some p => if ha = some p then aa else if aa = some p then ha else none

/-- One quote row after the merges of main, with every column of the
REQUIRED dropna list (lines 396-404) that can be missing modelled as an
Option; the thirteen minutes-model feature columns are carried as a list of
optional values. -/
structure AssistRow where
  player : String
  line : Option Rat
  odds_over : Option Rat
  odds_under : Option Rat
  player_team_abbr : Option String
  home_abbr : Option String
  away_abbr : Option String
  ast_per_min_last10 : Option Rat
  ast_std_last10 : Option Rat
  min_features : List (Option Rat)
deriving DecidableEq, Repr

/-- The opp_team_abbr column (line 375): infer_opp_abbr applied to the
row. -/
def rowOpp (r : AssistRow) : Option String :=
  infer_opp_abbr r.player_team_abbr r.home_abbr r.away_abbr

/-- The dropna predicate over the REQUIRED columns of main (lines 396-405):
the minutes-model features, ast_per_min_last10, ast_std_last10, line, both
implied probabilities, the player team, the inferred opponent and both
quote teams must all be present. -/
def requiredOk (r : AssistRow) : Bool :=
  r.min_features.all Option.isSome &&
  r.ast_per_min_last10.isSome &&
  r.ast_std_last10.isSome &&
  r.line.isSome &&
  (american_to_implied r.odds_over).isSome &&
  (american_to_implied r.odds_under).isSome &&
  r.player_team_abbr.isSome &&
  (rowOpp r).isSome &&
  r.home_abbr.isSome &&
  r.away_abbr.isSome

/-- The source's `pred_df = df.dropna(subset=REQUIRED)` (line 405): the
scored set keeps exactly the rows with every required column present. -/
def predRows (rows : List AssistRow) : List AssistRow :=
  rows.filter requiredOk

/-- The sigma column (line 418): `ast_std_last10.clip(lower=1.5).fillna(2.0)`
— clip leaves a missing value missing, fillna then replaces it by 2. -/
def sigmaOf (astStd : Option Rat) : Rat :=
  match astStd with
  | some s => max s (3 / 2)
  | none => 2

/-- A fully populated quote row (opponent resolvable: player team equals
the home team). -/
def rOK : AssistRow :=
  ⟨"lebron james", some 8, some (-110), some (-110), some "LAL",
   some "LAL", some "BOS", some 1, some 2, [some 30, some 1]⟩

/-- A row that is complete except that its trailing assists standard
deviation is missing. -/
def rNoStd : AssistRow :=
  ⟨"nikola jokic", some 9, some 120, some (-150), some "DEN",
   some "DEN", some "MIA", some 1, none, [some 34, some 0]⟩

/-- Whether the character list `pat` begins the character list `s`. -/
def matchAt : List Char → List Char → Bool
  | [], _ => true
  | _ :: _, [] => false
  | p :: ps, c :: cs => p == c && matchAt ps cs

/-- Whether the character list `pat` occurs anywhere in `s` (Python's
`" vs. " in m` / pandas str.contains on a plain pattern). -/
def containsTok (pat : List Char) : List Char → Bool
  | [] => matchAt pat []
  | c :: cs => matchAt pat (c :: cs) || containsTok pat cs

/-- One-position match of the pattern " vs. " as pandas str.contains
compiles it by default (regex=True): space, 'v', 's', then the regex dot
wildcard matching any character except a newline, then space. -/
def vsPatAt : List Char → Bool
  | ' ' :: 'v' :: 's' :: c :: ' ' :: _ => decide (c ≠ '\n')
  | _ => false

/-- Whether the regex " vs. " matches anywhere in the string (re.search
semantics of pandas str.contains with its default regex=True, under which
the dot in the pattern is a wildcard, not a literal period). -/
def containsVsPat : List Char → Bool
  | [] => false
  | c :: cs => vsPatAt (c :: cs) || containsVsPat cs

/-- The source's is_home column (build_points_features.py line 60,
build_minutes_features.py line 46, and line 215 of the assists script):
`MATCHUP.str.contains(" vs. ").astype(int)`, with the default regex=True,
so the period of the pattern matches any non-newline character. -/
def is_home (m : String) : Nat :=
  if containsVsPat m.toList then 1 else 0

/-- Modelled from the spec: the spec requires the feature builder to raise
on a matchup string in neither the "vs" nor the "@" notation; no builder in
src raises, so the required behavior is modelled here (error as none) for
comparison with is_home. -/
def spec_home_flag (m : String) : Option Nat :=
  if containsTok " vs. ".toList m.toList then some 1
  else if containsTok " @ ".toList m.toList then some 0
  else none

/-- The source's pred_minutes column (line 412):
`np.clip(min_booster.predict(dmin), 0, 42)` applied to whatever the minutes
model returns. -/
def pred_minutes (raw : Rat) : Rat :=
  min (max raw 0) 42

/-- The source's ast_mean column (line 415): predicted minutes times the
trailing assists-per-minute rate. -/
def ast_mean (raw rate : Rat) : Rat :=
  pred_minutes raw * rate

theorem windowAgg_congr {α β : Type} (f : List α → β) (w k : Nat)
    (xs ys : List α) (h : xs.take k = ys.take k) :
    windowAgg f w xs k = windowAgg f w ys k := by
  have hl : min k xs.length = min k ys.length := by
    have := congrArg List.length h
    simpa [List.length_take] using this
  unfold windowAgg
  rw [h]
  have hiff : (w ≤ k ∧ k ≤ xs.length) ↔ (w ≤ k ∧ k ≤ ys.length) := by omega
  by_cases hc : w ≤ k ∧ k ≤ xs.length
  · rw [if_pos hc, if_pos (hiff.mp hc)]
  · rw [if_neg hc, if_neg (fun hc2 => hc (hiff.mpr hc2))]

/-- C1.  No-look-ahead: every shift-then-roll trailing-window feature
(rolling means, rolling standard deviations, ratio-of-sums rates) at event
index k of a player's log is a function of the events with index strictly
below k only; perturbing events at indices at or above k leaves it
unchanged.  The first conjunct covers every window aggregate at once, the
remaining conjuncts instantiate it at the concrete features of the
source. -/
theorem C1_no_look_ahead (es es2 : List GameEvent) (k : Nat)
    (h : es.take k = es2.take k) :
    (∀ (β : Type) (f : List GameEvent → β) (w : Nat),
        windowAgg f w es k = windowAgg f w es2 k)
    ∧ pts_last10 es k = pts_last10 es2 k
    ∧ min_last5 es k = min_last5 es2 k
    ∧ pts_var_last10 es k = pts_var_last10 es2 k
    ∧ pts_std_last10 es k = pts_std_last10 es2 k
    ∧ pts_per_min_last10 es k = pts_per_min_last10 es2 k
    ∧ ast_per_min_last10 es k = ast_per_min_last10 es2 k := by
  refine ⟨fun β f w => windowAgg_congr f w k es es2 h, ?_, ?_, ?_, ?_, ?_, ?_⟩
  · exact windowAgg_congr _ 10 k es es2 h
  · exact windowAgg_congr _ 5 k es es2 h
  · exact windowAgg_congr _ 10 k es es2 h
  · exact windowAgg_congr _ 10 k es es2 h
  · exact windowAgg_congr _ 10 k es es2 h
  · exact windowAgg_congr _ 10 k es es2 h

/-- Witness for C1: two concrete four-game logs agreeing strictly before
index 3 and differing at index 3; the hypothesis is discharged by rfl and a
window-2 trailing mean evaluates to the same defined value on both. -/
theorem C1_witness :
    cesA.take 3 = cesB.take 3
    ∧ windowAgg (fun l => meanQ (l.map GameEvent.pts)) 2 cesA 3
        = windowAgg (fun l => meanQ (l.map GameEvent.pts)) 2 cesB 3
    ∧ windowAgg (fun l => meanQ (l.map GameEvent.pts)) 2 cesA 3 = some 25 :=
  ⟨rfl, (C1_no_look_ahead cesA cesB 3 rfl).1 Rat _ 2,
    by norm_num [windowAgg, cesA, meanQ]⟩

/-- C2 (failing input).  The flat shift-then-roll computation of the
team-defense "allowed" features mixes games of different teams: in the
concrete merged table exTG, the row at sorted index 13 is team 1's fourth
game, yet the source's opp_pts_allowed_last10 is defined there and equals
30 — the mean of seven of team 0's games and three of team 1's — while the
per-team trailing mean demanded by the claim (and by the source's own
"Rolling means per TEAM_ID" comment) is undefined, team 1 having only three
strictly-prior games. -/
theorem C2_cex :
    opp_pts_allowed_last10 exTG 13 = some 30
    ∧ perTeamAllowedPts exTG 13 = none := by
  constructor
  · norm_num [opp_pts_allowed_last10, exTG, tg, sortTeamDate, insertTG,
      teamDateLeB, windowAgg, meanQ]
  · norm_num [perTeamAllowedPts, exTG, tg, sortTeamDate, insertTG, teamDateLeB]

/-- C3.  American-odds-to-implied-probability conversion: positive odds o
map to 100/(o+100), negative odds to (-o)/((-o)+100), missing odds stay
missing (never zero), and the two round-trip values of the spec hold
exactly (hence within any positive tolerance): +150 gives 0.4 and -200
gives 2/3. -/
theorem C3_american_to_implied :
    (∀ o : Rat, 0 < o → american_to_implied (some o) = some (100 / (o + 100)))
    ∧ (∀ o : Rat, o < 0 → american_to_implied (some o) = some ((-o) / ((-o) + 100)))
    ∧ american_to_implied none = none
    ∧ american_to_implied none ≠ some 0
    ∧ american_to_implied (some 150) = some (2 / 5)
    ∧ american_to_implied (some (-200)) = some (2 / 3) := by
  refine ⟨fun o ho => ?_, fun o ho => ?_, rfl, by simp [american_to_implied], ?_, ?_⟩
  · simp [american_to_implied, if_pos ho]
  · simp [american_to_implied, if_neg (not_lt.mpr ho.le)]
  · norm_num [american_to_implied]
  · norm_num [american_to_implied]

/-- Witness for C3: the positive and negative branches applied at the
spec's concrete odds. -/
theorem C3_witness :
    ((0:Rat) < 150 ∧ american_to_implied (some 150) = some (100 / (150 + 100)))
    ∧ ((-200:Rat) < 0
        ∧ american_to_implied (some (-200)) = some ((-(-200)) / ((-(-200)) + 100))) :=
  ⟨⟨by norm_num, C3_american_to_implied.1 150 (by norm_num)⟩,
   ⟨by norm_num, C3_american_to_implied.2.1 (-200) (by norm_num)⟩⟩

theorem gauss01 (t : Real) :
    ProbabilityTheory.gaussianPDFReal 0 1 t
      = (Real.sqrt (2 * Real.pi))⁻¹ * Real.exp (-t ^ 2 / 2) := by
  simp [ProbabilityTheory.gaussianPDFReal]

theorem gauss_integrable : MeasureTheory.Integrable (ProbabilityTheory.gaussianPDFReal 0 1) :=
  ProbabilityTheory.integrable_gaussianPDFReal 0 1

theorem gauss_Iic_zero :
    ∫ t in Set.Iic (0:Real), ProbabilityTheory.gaussianPDFReal 0 1 t = 1 / 2 := by
  have h1 : (∫ t in Set.Iic (0:Real), ProbabilityTheory.gaussianPDFReal 0 1 t)
      = ∫ t in Set.Ioi (0:Real), ProbabilityTheory.gaussianPDFReal 0 1 t := by
    have he : (∫ t in Set.Iic (0:Real), ProbabilityTheory.gaussianPDFReal 0 1 t)
        = ∫ t in Set.Iic (0:Real), ProbabilityTheory.gaussianPDFReal 0 1 (-t) := by
      refine MeasureTheory.setIntegral_congr_fun measurableSet_Iic fun t _ => ?_
      rw [gauss01, gauss01, neg_sq]
    rw [he, integral_comp_neg_Iic, neg_zero]
  have h2 := intervalIntegral.integral_Iic_add_Ioi (b := (0:Real))
    gauss_integrable.integrableOn gauss_integrable.integrableOn
  rw [ProbabilityTheory.integral_gaussianPDFReal_eq_one 0 one_ne_zero] at h2
  linarith

theorem stdNormalCdf_split (x : Real) :
    stdNormalCdf x = 1 / 2 + ∫ t in (0:Real)..x, ProbabilityTheory.gaussianPDFReal 0 1 t := by
  have h := intervalIntegral.integral_Iic_sub_Iic (μ := MeasureTheory.volume)
    (a := (0:Real)) (b := x)
    gauss_integrable.integrableOn gauss_integrable.integrableOn
  rw [gauss_Iic_zero] at h
  unfold stdNormalCdf
  linarith

theorem gauss_interval (x : Real) :
    (∫ t in (0:Real)..x, ProbabilityTheory.gaussianPDFReal 0 1 t)
      = (Real.sqrt (2 * Real.pi))⁻¹ *
        (Real.sqrt 2 * ∫ u in (0:Real)..(x / Real.sqrt 2), Real.exp (-u ^ 2)) := by
  have harg : ∀ t : Real, -(t / Real.sqrt 2) ^ 2 = -t ^ 2 / 2 := by
    intro t
    rw [div_pow, Real.sq_sqrt (by norm_num : (0:Real) ≤ 2)]
    ring
  have hpull : (∫ t in (0:Real)..x, ProbabilityTheory.gaussianPDFReal 0 1 t)
      = (Real.sqrt (2 * Real.pi))⁻¹ * ∫ t in (0:Real)..x, Real.exp (-t ^ 2 / 2) := by
    simp_rw [gauss01]
    rw [intervalIntegral.integral_const_mul]
  have h2 : Real.sqrt 2 ≠ 0 := by positivity
  have hcomp := intervalIntegral.integral_comp_div (a := (0:Real)) (b := x)
    (fun u => Real.exp (-u ^ 2)) h2
  rw [zero_div, smul_eq_mul] at hcomp
  have hsub : (∫ t in (0:Real)..x, Real.exp (-t ^ 2 / 2))
      = Real.sqrt 2 * ∫ u in (0:Real)..(x / Real.sqrt 2), Real.exp (-u ^ 2) := by
    calc (∫ t in (0:Real)..x, Real.exp (-t ^ 2 / 2))
        = ∫ t in (0:Real)..x, Real.exp (-(t / Real.sqrt 2) ^ 2) := by
          refine intervalIntegral.integral_congr fun t _ => ?_
          rw [harg]
      _ = Real.sqrt 2 * ∫ u in (0:Real)..(x / Real.sqrt 2), Real.exp (-u ^ 2) := hcomp
  rw [hpull, hsub]

theorem norm_cdf_eq_stdNormalCdf (x : Real) : norm_cdf x = stdNormalCdf x := by
  have hsplit := stdNormalCdf_split x
  have hint := gauss_interval x
  have hpi : Real.sqrt Real.pi ≠ 0 := by positivity
  have hI : (∫ u in (0:Real)..(x / Real.sqrt 2), Real.exp (-u ^ 2))
      = Real.sqrt Real.pi / 2 * erf (x / Real.sqrt 2) := by
    unfold erf
    field_simp
    ring
  rw [hI] at hint
  have h2 : Real.sqrt 2 ≠ 0 := by positivity
  have h2pi : Real.sqrt (2 * Real.pi) = Real.sqrt 2 * Real.sqrt Real.pi :=
    Real.sqrt_mul (by norm_num) _
  rw [hsplit, hint, h2pi]
  unfold norm_cdf
  field_simp
  ring

/-- C4.  Edge-scorer probabilities: for a candidate with line L, point
estimate m and dispersion s > 0, the model over-probability computed by the
source (1 - norm_cdf of the z-score, with norm_cdf the erf formula of lines
139-140) equals 1 - Phi((L - m)/s) for Phi the standard normal cumulative
distribution function, and the model under-probability is exactly one minus
the over-probability. -/
theorem C4_edge_scorer (L m s : Real) (hs : 0 < s) :
    p_over_model L m s = 1 - stdNormalCdf ((L - m) / s)
    ∧ p_under_model L m s = 1 - p_over_model L m s := by
  refine ⟨?_, rfl⟩
  unfold p_over_model
  rw [norm_cdf_eq_stdNormalCdf]

/-- Witness for C4 at line 19/2, estimate 9, dispersion 3/2. -/
theorem C4_witness :
    (0:Real) < 3 / 2
    ∧ (p_over_model (19/2) 9 (3/2) = 1 - stdNormalCdf ((19/2 - 9) / (3/2))
        ∧ p_under_model (19/2) 9 (3/2) = 1 - p_over_model (19/2) 9 (3/2)) :=
  ⟨by norm_num, C4_edge_scorer (19/2) 9 (3/2) (by norm_num)⟩

theorem sortByRatingDesc_cons (x : Cand) (xs : List Cand) :
    sortByRatingDesc (x :: xs) = insertByRating x (sortByRatingDesc xs) := rfl

theorem mem_insertByRating {c a : Cand} {l : List Cand} :
    a ∈ insertByRating c l ↔ a = c ∨ a ∈ l := by
  induction l with
  | nil => simp [insertByRating]
  | cons x xs ih =>
    unfold insertByRating
    by_cases h : ai_rating c ≥ ai_rating x
    · rw [if_pos h]
      simp only [List.mem_cons]
    · rw [if_neg h]
      simp only [List.mem_cons, ih]
      tauto

theorem mem_sortByRatingDesc {a : Cand} {l : List Cand} :
    a ∈ sortByRatingDesc l ↔ a ∈ l := by
  induction l with
  | nil => simp [sortByRatingDesc]
  | cons x xs ih =>
    rw [sortByRatingDesc_cons, mem_insertByRating, List.mem_cons, ih]

theorem pairwise_insertByRating {c : Cand} {l : List Cand}
    (h : l.Pairwise (fun a b => ai_rating b ≤ ai_rating a)) :
    (insertByRating c l).Pairwise (fun a b => ai_rating b ≤ ai_rating a) := by
  induction l with
  | nil => simp [insertByRating]
  | cons x xs ih =>
    rw [List.pairwise_cons] at h
    obtain ⟨hx, hxs⟩ := h
    unfold insertByRating
    by_cases hc : ai_rating c ≥ ai_rating x
    · rw [if_pos hc]
      refine List.Pairwise.cons ?_ (List.Pairwise.cons hx hxs)
      intro b hb
      rcases List.mem_cons.mp hb with rfl | hb
      · exact hc
      · exact le_trans (hx b hb) hc
    · rw [if_neg hc]
      refine List.Pairwise.cons ?_ (ih hxs)
      intro b hb
      rcases mem_insertByRating.mp hb with rfl | hb
      · exact le_of_lt (lt_of_not_ge hc)
      · exact hx b hb

theorem pairwise_sortByRatingDesc (l : List Cand) :
    (sortByRatingDesc l).Pairwise (fun a b => ai_rating b ≤ ai_rating a) := by
  induction l with
  | nil => exact List.Pairwise.nil
  | cons x xs ih => exact pairwise_insertByRating ih

theorem dedupSeen_sublist {κ : Type} [DecidableEq κ] (key : Cand → κ)
    (l : List Cand) : ∀ seen : List κ, (dedupSeen key seen l).Sublist l := by
  induction l with
  | nil => intro seen; simp [dedupSeen]
  | cons x xs ih =>
    intro seen
    unfold dedupSeen
    by_cases h : key x ∈ seen
    · rw [if_pos h]
      exact (ih seen).cons x
    · rw [if_neg h]
      exact (ih (key x :: seen)).cons₂ x

theorem dedupSeen_key_nodup {κ : Type} [DecidableEq κ] (key : Cand → κ)
    (l : List Cand) :
    ∀ seen : List κ,
      ((dedupSeen key seen l).map key).Nodup
      ∧ ∀ k ∈ (dedupSeen key seen l).map key, k ∉ seen := by
  induction l with
  | nil => intro seen; simp [dedupSeen]
  | cons x xs ih =>
    intro seen
    unfold dedupSeen
    by_cases h : key x ∈ seen
    · rw [if_pos h]
      exact ih seen
    · rw [if_neg h]
      obtain ⟨h1, h2⟩ := ih (key x :: seen)
      refine ⟨?_, ?_⟩
      · rw [List.map_cons, List.nodup_cons]
        exact ⟨fun hmem => (h2 _ hmem) (List.mem_cons_self _ _), h1⟩
      · intro k hk
        rw [List.map_cons, List.mem_cons] at hk
        rcases hk with rfl | hk
        · exact h
        · exact fun hs => (h2 k hk) (List.mem_cons_of_mem _ hs)

theorem dedupSeen_dominates {κ : Type} [DecidableEq κ] (key : Cand → κ)
    (l : List Cand) :
    ∀ seen : List κ,
      l.Pairwise (fun a b => ai_rating b ≤ ai_rating a) →
      ∀ c ∈ l, key c ∉ seen →
        ∃ d ∈ dedupSeen key seen l, key d = key c ∧ ai_rating c ≤ ai_rating d := by
  induction l with
  | nil =>
    intro seen _ c hc
    exact absurd hc (List.not_mem_nil c)
  | cons x xs ih =>
    intro seen hp c hc hcs
    rw [List.pairwise_cons] at hp
    obtain ⟨hx, hxs⟩ := hp
    unfold dedupSeen
    by_cases h : key x ∈ seen
    · rw [if_pos h]
      rcases List.mem_cons.mp hc with rfl | hc2
      · exact absurd h hcs
      · exact ih seen hxs c hc2 hcs
    · rw [if_neg h]
      rcases List.mem_cons.mp hc with rfl | hc2
      · exact ⟨c, List.mem_cons_self _ _, rfl, le_refl _⟩
      · by_cases hkey : key c = key x
        · exact ⟨x, List.mem_cons_self _ _, hkey.symm, hx c hc2⟩
        · obtain ⟨d, hd, hdk, hdr⟩ := ih (key x :: seen) hxs c hc2 (by
            intro hmem
            rcases List.mem_cons.mp hmem with heq | hmem2
            · exact hkey heq
            · exact hcs hmem2)
          exact ⟨d, List.mem_cons_of_mem _ hd, hdk, hdr⟩

theorem rankedCands_pairwise (l : List Cand) :
    (rankedCands l).Pairwise (fun a b => ai_rating b ≤ ai_rating a) := by
  have h1 : (dedupFirst (fun c => (c.player, c.line)) (sortByRatingDesc l)).Sublist
      (sortByRatingDesc l) := dedupSeen_sublist _ _ []
  have h2 : (rankedCands l).Sublist
      (dedupFirst (fun c => (c.player, c.line)) (sortByRatingDesc l)) :=
    dedupSeen_sublist _ _ []
  exact ((pairwise_sortByRatingDesc l).sublist h1).sublist h2

theorem rankedCands_player_nodup (l : List Cand) :
    ((rankedCands l).map Cand.player).Nodup :=
  (dedupSeen_key_nodup (fun c => c.player)
    (dedupFirst (fun c => (c.player, c.line)) (sortByRatingDesc l)) []).1

theorem rankedCands_dominates (l : List Cand) :
    ∀ c ∈ l, ∃ d ∈ rankedCands l, d.player = c.player ∧ ai_rating c ≤ ai_rating d := by
  intro c hc
  have hsorted := pairwise_sortByRatingDesc l
  have hc1 : c ∈ sortByRatingDesc l := mem_sortByRatingDesc.mpr hc
  obtain ⟨d1, hd1, hk1, hr1⟩ :=
    dedupSeen_dominates (fun c => (c.player, c.line)) (sortByRatingDesc l) []
      hsorted c hc1 (List.not_mem_nil _)
  have hsorted2 : (dedupFirst (fun c => (c.player, c.line))
      (sortByRatingDesc l)).Pairwise (fun a b => ai_rating b ≤ ai_rating a) :=
    hsorted.sublist (dedupSeen_sublist _ _ [])
  obtain ⟨d2, hd2, hk2, hr2⟩ :=
    dedupSeen_dominates (fun c => c.player)
      (dedupFirst (fun c => (c.player, c.line)) (sortByRatingDesc l)) []
      hsorted2 d1 hd1 (List.not_mem_nil _)
  refine ⟨d2, hd2, ?_, le_trans hr1 hr2⟩
  have hp1 : d1.player = c.player := congrArg Prod.fst hk1
  rw [hk2, hp1]

theorem selectUnders_sublist (l : List Cand) :
    (selectUnders l).Sublist (rankedCands l) :=
  (List.take_sublist _ _).trans (List.filter_sublist _)

theorem selectOvers_sublist (l : List Cand) :
    (selectOvers l).Sublist (rankedCands l) :=
  (List.take_sublist _ _).trans (List.filter_sublist _)

theorem selectUnders_side (l : List Cand) :
    ∀ c ∈ selectUnders l, c.side = Side.under := by
  intro c hc
  have := (List.take_sublist 5 _).subset hc
  have hm := List.mem_filter.mp this
  exact of_decide_eq_true hm.2

theorem selectOvers_side (l : List Cand) :
    ∀ c ∈ selectOvers l, c.side = Side.over := by
  intro c hc
  have := (List.take_sublist (11 - (selectUnders l).length) _).subset hc
  have hm := List.mem_filter.mp this
  exact of_decide_eq_true hm.2

theorem slate_player_nodup (l : List Cand) :
    ((selectSlate l).map Cand.player).Nodup := by
  have hranked := rankedCands_player_nodup l
  have hOv : ((selectOvers l).map Cand.player).Nodup :=
    hranked.sublist ((selectOvers_sublist l).map Cand.player)
  have hUn : ((selectUnders l).map Cand.player).Nodup :=
    hranked.sublist ((selectUnders_sublist l).map Cand.player)
  have hdisj : List.Disjoint ((selectOvers l).map Cand.player)
      ((selectUnders l).map Cand.player) := by
    intro p hpo hpu
    obtain ⟨a, ha, hap⟩ := List.mem_map.mp hpo
    obtain ⟨b, hb, hbp⟩ := List.mem_map.mp hpu
    have haR : a ∈ rankedCands l := (selectOvers_sublist l).subset ha
    have hbR : b ∈ rankedCands l := (selectUnders_sublist l).subset hb
    have hab : a = b :=
      List.inj_on_of_nodup_map hranked haR hbR (by rw [hap, hbp])
    have hside : a.side = Side.over := selectOvers_side l a ha
    have hside2 : b.side = Side.under := selectUnders_side l b hb
    rw [hab, hside2] at hside
    exact Side.noConfusion hside
  rw [selectSlate, List.map_append]
  exact hOv.append hUn hdisj

/-- C5 (amended).  The selection step keeps at most one pick per
normalized player, at most five under-side picks, at most eleven picks in
total, the over-side picks fill only the capacity left after the under
slots, both sections are in descending ai_rating order (the best edge
times 100 rounded to one decimal), and for every input candidate the
retained candidate of the same player has an ai_rating at least as
large.  (The claim's stronger reading — keeping the highest raw-edge
candidate and ordering by raw edge — fails because the sort key is the
rounded rating; see the counterexample.) -/
theorem C5_selector (l : List Cand) :
    ((selectSlate l).map Cand.player).Nodup
    ∧ (selectUnders l).length ≤ 5
    ∧ (selectOvers l).length ≤ 11 - (selectUnders l).length
    ∧ (selectSlate l).length ≤ 11
    ∧ (selectOvers l).Pairwise (fun a b => ai_rating b ≤ ai_rating a)
    ∧ (selectUnders l).Pairwise (fun a b => ai_rating b ≤ ai_rating a)
    ∧ (∀ c ∈ l, ∃ d ∈ rankedCands l, d.player = c.player ∧ ai_rating c ≤ ai_rating d) := by
  have hu : (selectUnders l).length ≤ 5 := List.length_take_le _ _
  have ho : (selectOvers l).length ≤ 11 - (selectUnders l).length :=
    List.length_take_le _ _
  refine ⟨slate_player_nodup l, hu, ho, ?_, ?_, ?_, rankedCands_dominates l⟩
  · rw [selectSlate, List.length_append]
    omega
  · exact (rankedCands_pairwise l).sublist (selectOvers_sublist l)
  · exact (rankedCands_pairwise l).sublist (selectUnders_sublist l)

/-- Witness for C5: the domination clause applied to a concrete candidate
of a concrete input list. -/
theorem C5_witness :
    cLow ∈ [cLow, cHigh]
    ∧ ∃ d ∈ rankedCands [cLow, cHigh],
        d.player = cLow.player ∧ ai_rating cLow ≤ ai_rating d :=
  ⟨List.mem_cons_self _ _,
   (C5_selector [cLow, cHigh]).2.2.2.2.2.2 cLow (List.mem_cons_self _ _)⟩

/-- C5 (counterexample).  Two candidates for the same player whose raw
edges differ (0.1001 versus 0.10044) but whose ai_ratings both round to
10.0: the selector keeps the earlier, lower-edge candidate, so the slate
does not keep the player's highest-edge candidate as the claim states. -/
theorem C5_cex :
    selectSlate [cLow, cHigh] = [cLow]
    ∧ cLow.player = cHigh.player
    ∧ cLow.edge < cHigh.edge := by
  refine ⟨?_, rfl, by norm_num [cLow, cHigh]⟩
  norm_num [selectSlate, selectOvers, selectUnders, rankedCands, dedupFirst,
    dedupSeen, sortByRatingDesc, insertByRating, ai_rating, round1, bround,
    cLow, cHigh, round_eq, List.filter_cons]
  simp

theorem filter_rate_insertByRating (r : Rat) (c : Cand) (l : List Cand) :
    (insertByRating c l).filter (fun x => decide (ai_rating x = r))
      = if ai_rating c = r
        then c :: l.filter (fun x => decide (ai_rating x = r))
        else l.filter (fun x => decide (ai_rating x = r)) := by
  induction l with
  | nil =>
    by_cases h : ai_rating c = r <;> simp [insertByRating, h]
  | cons x xs ih =>
    unfold insertByRating
    by_cases hc : ai_rating c ≥ ai_rating x
    · rw [if_pos hc]
      by_cases h : ai_rating c = r <;> simp [List.filter_cons, h]
    · rw [if_neg hc]
      by_cases hx : ai_rating x = r
      · have hcr : ai_rating c ≠ r := by
          intro hcr
          exact hc (le_of_eq (hx.trans hcr.symm))
        simp [List.filter_cons, hx, hcr, ih]
      · by_cases hcr2 : ai_rating c = r <;> simp [List.filter_cons, hx, hcr2, ih]

/-- C8 (amended).  The selection pipeline is a pure function of the
candidate list (a Lean function by construction) and its ranking sort is
in descending ai_rating order; no player-name secondary key exists.  For
equal ratings the program's ordering is whatever its sort implementation
yields: on candidate lists of at most 16 rows — where pandas' default
sort is a stable insertion sort and its descending double-reversal
cancels — ties keep their input order, stated here as the sorted list
restricted to any fixed rating value coinciding with the input list so
restricted; for larger frames pandas' quicksort fixes no particular tie
order, so no stability is asserted there.  In no case is the tie-break
the normalized player name of the claim. -/
theorem C8_sort_stable (l : List Cand) (r : Rat) :
    (l.length ≤ 16 →
      (sortByRatingDesc l).filter (fun c => decide (ai_rating c = r))
        = l.filter (fun c => decide (ai_rating c = r)))
    ∧ (sortByRatingDesc l).Pairwise (fun a b => ai_rating b ≤ ai_rating a) := by
  refine ⟨fun hlen => ?_, pairwise_sortByRatingDesc l⟩
  clear hlen
  induction l with
  | nil => rfl
  | cons x xs ih =>
    rw [sortByRatingDesc_cons, filter_rate_insertByRating, List.filter_cons]
    by_cases h : ai_rating x = r <;> simp [h, ih]

/-- C8 (counterexample).  Two equal-edge (hence equal-rating) candidates
with different players, the alphabetically larger name first: the selector
returns them in input order (at two rows pandas' sort is stable), not in
ascending normalized-player-name order. -/
theorem C8_cex :
    ai_rating czCand = ai_rating caCand
    ∧ (selectSlate [czCand, caCand]).map Cand.player = ["zz top", "aa bottom"]
    ∧ "aa bottom" < "zz top" := by
  refine ⟨by norm_num [ai_rating, round1, bround, czCand, caCand, round_eq], ?_, ?_⟩
  · norm_num [selectSlate, selectOvers, selectUnders, rankedCands, dedupFirst,
      dedupSeen, sortByRatingDesc, insertByRating, ai_rating, round1, bround,
      czCand, caCand, round_eq, List.filter_cons,
      show ("aa bottom" : String) ≠ "zz top" from by decide]
    simp
  · rw [String.lt_iff_toList_lt]
    decide

/-- Witness for C8: the tie-order clause applied at the concrete
two-candidate tie, where the length bound that makes the program's sort
stable is discharged. -/
theorem C8_witness :
    ([czCand, caCand] : List Cand).length ≤ 16
    ∧ (sortByRatingDesc [czCand, caCand]).filter
        (fun c => decide (ai_rating c = 10))
      = ([czCand, caCand] : List Cand).filter
        (fun c => decide (ai_rating c = 10)) :=
  ⟨by norm_num, (C8_sort_stable [czCand, caCand] 10).1 (by norm_num)⟩

theorem predRows_required (rows : List AssistRow) (r : AssistRow)
    (h : r ∈ predRows rows) :
    r.ast_std_last10.isSome = true ∧ (rowOpp r).isSome = true := by
  have hm := (List.mem_filter.mp h).2
  simp only [requiredOk, Bool.and_eq_true] at hm
  obtain ⟨⟨⟨⟨⟨⟨⟨⟨⟨h1, h2⟩, h3⟩, h4⟩, h5⟩, h6⟩, h7⟩, h8⟩, h9⟩, h10⟩ := hm
  exact ⟨h3, h8⟩

/-- C6.  Opponent resolution is fail-closed: a player team equal to the
home team yields the away team, one equal to the away team yields the home
team, a team matching neither (or an unknown player team) yields no
opponent, and every row of the scored set (the dropna over the REQUIRED
columns) has a resolved opponent — unresolved rows never reach scoring. -/
theorem C6_opponent_fail_closed :
    (∀ (p : String) (aa : Option String),
        infer_opp_abbr (some p) (some p) aa = aa)
    ∧ (∀ (p : String) (ha : Option String),
        infer_opp_abbr (some p) ha (some p) = ha)
    ∧ (∀ (p : String) (ha aa : Option String),
        ha ≠ some p → aa ≠ some p → infer_opp_abbr (some p) ha aa = none)
    ∧ (∀ ha aa : Option String, infer_opp_abbr none ha aa = none)
    ∧ (∀ (rows : List AssistRow) (r : AssistRow),
        r ∈ predRows rows → (rowOpp r).isSome = true) := by
  refine ⟨fun p aa => by simp [infer_opp_abbr], fun p ha => ?_,
    fun p ha aa h1 h2 => by simp [infer_opp_abbr, h1, h2],
    fun ha aa => rfl,
    fun rows r h => (predRows_required rows r h).2⟩
  by_cases h : ha = some p
  · simp [infer_opp_abbr, h]
  · simp [infer_opp_abbr, h]

/-- Witness for C6: the neither-team branch at a concrete traded player
(roster team MIA, quote LAL at BOS), and the scored-set clause at a
concrete fully populated row. -/
theorem C6_witness :
    (some "LAL" ≠ some "MIA" ∧ some "BOS" ≠ some "MIA"
      ∧ infer_opp_abbr (some "MIA") (some "LAL") (some "BOS") = none)
    ∧ (rOK ∈ predRows [rOK] ∧ (rowOpp rOK).isSome = true) :=
  ⟨⟨by decide, by decide,
    C6_opponent_fail_closed.2.2.1 "MIA" (some "LAL") (some "BOS")
      (by decide) (by decide)⟩,
   ⟨by decide,
    C6_opponent_fail_closed.2.2.2.2 [rOK] rOK (by decide)⟩⟩

/-- C7 (amended).  The dispersion is floored at the positive constant 1.5
(so it is never zero or negative), a present trailing standard deviation s
yields dispersion max s 1.5, and every scored row has a present trailing
standard deviation — because the REQUIRED dropna runs before scoring, a
row with a missing trailing standard deviation is dropped and the 2.0
fallback of the fillna call is unreachable. -/
theorem C7_sigma_floor :
    (∀ s : Option Rat, (3/2 : Rat) ≤ sigmaOf s ∧ 0 < sigmaOf s)
    ∧ (∀ v : Rat, sigmaOf (some v) = max v (3/2))
    ∧ (∀ (rows : List AssistRow) (r : AssistRow),
        r ∈ predRows rows → r.ast_std_last10.isSome = true) := by
  refine ⟨fun s => ?_, fun v => rfl,
    fun rows r h => (predRows_required rows r h).1⟩
  cases s with
  | none =>
    constructor <;> norm_num [sigmaOf]
  | some v =>
    refine ⟨le_max_right _ _, lt_of_lt_of_le (by norm_num) (le_max_right _ _)⟩

/-- C7 (counterexample).  A row whose only missing REQUIRED column is the
trailing assists standard deviation is dropped from the scored set, so a
missing trailing standard deviation alone does cause the row to be
dropped, contradicting the claim. -/
theorem C7_cex :
    predRows [rNoStd] = []
    ∧ rNoStd.ast_std_last10 = none
    ∧ rNoStd.min_features.all Option.isSome = true
    ∧ rNoStd.ast_per_min_last10.isSome = true
    ∧ rNoStd.line.isSome = true
    ∧ (american_to_implied rNoStd.odds_over).isSome = true
    ∧ (american_to_implied rNoStd.odds_under).isSome = true
    ∧ rNoStd.player_team_abbr.isSome = true
    ∧ (rowOpp rNoStd).isSome = true
    ∧ rNoStd.home_abbr.isSome = true
    ∧ rNoStd.away_abbr.isSome = true := by
  decide

/-- Witness for C7: the scored-set clause applied at the concrete
populated row. -/
theorem C7_witness :
    (rOK ∈ predRows [rOK] ∧ rOK.ast_std_last10.isSome = true)
    ∧ sigmaOf rOK.ast_std_last10 = 2 :=
  ⟨⟨by decide, C7_sigma_floor.2.2 [rOK] rOK (by decide)⟩,
   by norm_num [rOK, sigmaOf]⟩

/-- C9 (amended).  The home flag is total and never raises: it is 1
exactly when the matchup string contains a match of the regex " vs. "
(space, 'v', 's', any non-newline character, space — pandas str.contains
defaults to regex=True, making the period a wildcard) and 0 for every
other string, including the "@" away notation; strings in neither
notation silently get a value — 0 in general, and even 1 for near-miss
strings such as "A vsX B" — instead of an error (the builder always
produces 0 or 1). -/
theorem C9_home_flag :
    (∀ m : String, is_home m = 0 ∨ is_home m = 1)
    ∧ (∀ m : String, containsVsPat m.toList = true → is_home m = 1)
    ∧ (∀ m : String, containsVsPat m.toList = false → is_home m = 0)
    ∧ is_home "LAL vs. BOS" = 1
    ∧ is_home "LAL @ BOS" = 0
    ∧ is_home "N-A GARBAGE" = 0
    ∧ is_home "A vsX B" = 1 := by
  refine ⟨fun m => ?_, fun m h => ?_, fun m h => ?_,
    by decide, by decide, by decide, by decide⟩
  · unfold is_home
    split
    · exact Or.inr rfl
    · exact Or.inl rfl
  · unfold is_home
    rw [if_pos h]
  · unfold is_home
    rw [if_neg (by rw [h]; exact Bool.false_ne_true)]

/-- C9 (counterexample).  On a matchup string in neither notation the
source's builder silently yields the away default 0 instead of raising,
while the behavior the claim requires (modelled by spec_home_flag) is an
error. -/
theorem C9_cex :
    is_home "N-A GARBAGE" = 0 ∧ spec_home_flag "N-A GARBAGE" = none := by
  decide

/-- Witness for C9: the two conditional clauses applied at concrete
matchup strings of each notation. -/
theorem C9_witness :
    (containsVsPat "DEN vs. OKC".toList = true
      ∧ is_home "DEN vs. OKC" = 1)
    ∧ (containsVsPat "MIA @ ORL".toList = false
      ∧ is_home "MIA @ ORL" = 0) :=
  ⟨⟨by decide, C9_home_flag.2.1 "DEN vs. OKC" (by decide)⟩,
   ⟨by decide, C9_home_flag.2.2.1 "MIA @ ORL" (by decide)⟩⟩

/-- C10.  The predicted minutes fed to the assists point estimate are
clipped into [0, 42] whatever the minutes model returns, so for a
nonnegative trailing assists-per-minute rate the assists point estimate is
nonnegative and bounded by 42 times that rate. -/
theorem C10_minutes_clip (raw rate : Rat) :
    (0 ≤ pred_minutes raw ∧ pred_minutes raw ≤ 42)
    ∧ (0 ≤ rate → 0 ≤ ast_mean raw rate ∧ ast_mean raw rate ≤ 42 * rate) := by
  have h0 : 0 ≤ pred_minutes raw := by
    unfold pred_minutes
    exact le_min (le_max_right _ _) (by norm_num)
  have h42 : pred_minutes raw ≤ 42 := min_le_right _ _
  refine ⟨⟨h0, h42⟩, fun hr => ⟨mul_nonneg h0 hr, ?_⟩⟩
  unfold ast_mean
  exact mul_le_mul_of_nonneg_right h42 hr

/-- Witness for C10: a minutes-model output of 100 is clipped to 42 and
the estimate bound holds at rate 1/10. -/
theorem C10_witness :
    ((0:Rat) ≤ 1/10)
    ∧ (0 ≤ ast_mean 100 (1/10) ∧ ast_mean 100 (1/10) ≤ 42 * (1/10))
    ∧ pred_minutes 100 = 42 :=
  ⟨by norm_num, (C10_minutes_clip 100 (1/10)).2 (by norm_num),
   by norm_num [pred_minutes]⟩
